import Mathlib

/-!
Verification model of the calibcam parameter-optimization engine
(`calibcam/optimization.py`, `calibcam/optfunctions_jacfwd.py`,
`calibcam/camcalibrator.py`).

Real numbers are modelled as rationals, numpy arrays as lists (slicing with
numpy's clamping semantics, reshape as indexed reads with the divisibility
requirement numpy enforces), and the not-a-number sentinel of the
corner-observation array as `Option` (`none` = NaN).  Numpy reshape errors
are modelled by `Option`-valued functions returning `none`.
-/

namespace Calibcam

/-- A per-camera calibration record (the `calib` dict): camera rotation
`rvec_cam` (axis-angle, 3 entries), translation `tvec_cam` (3 entries),
intrinsic matrix `A` (3 x 3), distortion `k` (5 entries), and per-frame board
poses `rvecs`/`tvecs`.  The source stores board poses per available frame and
selects the row by `frame_idxs_cam == pose_idx`, which picks the pose of the
global frame `pose_idx`; we index by the global frame directly. -/
structure Calib where
  rvec_cam : ℕ → ℚ
  tvec_cam : ℕ → ℚ
  A : ℕ → ℕ → ℚ
  k : ℕ → ℚ
  rvecs : ℕ → ℕ → ℚ
  tvecs : ℕ → ℕ → ℚ

/-! ## Parameter vector model: `make_initialization` (optimization.py 269-297) -/

/-- Entry `p` (0 ≤ p < 20) of one row of `camera_params`
(optimization.py 274-287): `param[0:3] = rvec_cam`, `param[3:6] = tvec_cam`,
`param[6:15] = A.ravel()`; for the distortion tail, when `k_to_zero` the row
stays 0 except at the free coefficients (`param[idxs] = calib.k[0][free]`),
otherwise `param[15:20] = calib.k`. -/
def camParamEntry (freeK : ℕ → Bool) (kToZero : Bool) (cal : Calib) (p : ℕ) : ℚ :=
  if p < 3 then cal.rvec_cam p
  else if p < 6 then cal.tvec_cam (p - 3)
  else if p < 15 then cal.A ((p - 6) / 3) ((p - 6) % 3)
  else if kToZero then (if freeK (p - 15) then cal.k (p - 15) else 0)
  else cal.k (p - 15)

/-- Column `p` of `camera_params`: the value of scalar parameter `p` for every
camera, in camera order. -/
def camParamCol (freeK : ℕ → Bool) (kToZero : Bool) (calibs : List Calib) (p : ℕ) : List ℚ :=
  calibs.map (fun cal => camParamEntry freeK kToZero cal p)

/-- `camera_params.T.ravel()` (optimization.py 293), built segment by segment:
`camParamCols freeK kToZero calibs s m` is the concatenation of columns
`s, s+1, ..., s+m-1` ("one scalar parameter for all cams grouped"). -/
def camParamCols (freeK : ℕ → Bool) (kToZero : Bool) (calibs : List Calib) : ℕ → ℕ → List ℚ
  | _, 0 => []
  | s, m + 1 => camParamCol freeK kToZero calibs s ++ camParamCols freeK kToZero calibs (s + 1) m

/-- Pose indices: frames observed by at least one camera,
`np.where(np.any(frame_masks, axis=0))[0]` (optimization.py 301). -/
def poseIdxs (frame_masks : List (List Bool)) : List ℕ :=
  (List.range ((frame_masks.map List.length).foldr max 0)).filter
    (fun t => frame_masks.any (fun m => m.getD t false))

/-- One step of the camera loop of `make_common_pose_params`
(optimization.py 308-313): fill the pose slot from this camera when the slot
is still all zero and the camera observed the frame
(`if np.all(pose_params[0, i_pose, :] == 0) and frame_mask_cam[pose_idx]`). -/
def commonPoseStep (t : ℕ) (acc : List ℚ × List ℚ) (cm : Calib × List Bool) : List ℚ × List ℚ :=
  if acc.1 = [0, 0, 0] ∧ cm.2.getD t false = true then
    ((List.range 3).map (cm.1.rvecs t), (List.range 3).map (cm.1.tvecs t))
  else acc

/-- The board pose chosen for global frame `t` by `make_common_pose_params`:
fold of the camera loop starting from the zero-initialised slot. -/
def commonPose (calibs : List Calib) (frame_masks : List (List Bool)) (t : ℕ) :
    List ℚ × List ℚ :=
  (calibs.zip frame_masks).foldl (commonPoseStep t) ([0, 0, 0], [0, 0, 0])

/-- `pose_params[0]`: one board rotation vector per pose index. -/
def boardRvecs (calibs : List Calib) (frame_masks : List (List Bool)) : List (List ℚ) :=
  (poseIdxs frame_masks).map (fun t => (commonPose calibs frame_masks t).1)

/-- `pose_params[1]`: one board translation vector per pose index. -/
def boardTvecs (calibs : List Calib) (frame_masks : List (List Bool)) : List (List ℚ) :=
  (poseIdxs frame_masks).map (fun t => (commonPose calibs frame_masks t).2)

/-- The full flat parameter vector `vars_full` built by `make_initialization`
(optimization.py 293): `np.concatenate((camera_params.T.ravel(),
pose_params.ravel()))`, where `pose_params.ravel()` lists all board rotation
vectors followed by all board translation vectors. -/
def make_initialization_vars_full (calibs : List Calib) (frame_masks : List (List Bool))
    (freeK : ℕ → Bool) (kToZero : Bool) : List ℚ :=
  camParamCols freeK kToZero calibs 0 20
    ++ (boardRvecs calibs frame_masks).flatten ++ (boardTvecs calibs frame_masks).flatten

/-! ## Parameter vector model: `unravel_vars_full` (optimization.py 242-266) -/

/-- Numpy basic slice `v[a:b]`: clamps silently, never errors. -/
def npSlice (v : List ℚ) (a b : ℕ) : List ℚ := (v.drop a).take (b - a)

/-- `seg.reshape(rows, -1).T`: requires `rows` to divide the length (numpy
raises otherwise, modelled as `none`); row `j` of the transpose collects
`seg[i * cols + j]` for `i < rows`. -/
def reshapeRowsT (seg : List ℚ) (rows : ℕ) : Option (List (List ℚ)) :=
  if seg.length % rows = 0 then
    some ((List.range (seg.length / rows)).map (fun j =>
      (List.range rows).map (fun i => seg.getD (i * (seg.length / rows) + j) 0)))
  else none

/-- `seg.reshape(3, 3, -1).transpose((2, 0, 1))`: per-camera 3 x 3 matrices,
entry `(i, j)` of camera `c` read from `seg[(3 * i + j) * cols + c]`. -/
def reshape33T (seg : List ℚ) : Option (List (List (List ℚ))) :=
  if seg.length % 9 = 0 then
    some ((List.range (seg.length / 9)).map (fun c =>
      (List.range 3).map (fun i => (List.range 3).map (fun j =>
        seg.getD ((3 * i + j) * (seg.length / 9) + c) 0))))
  else none

/-- `seg.reshape(-1, 3)`: consecutive triples; requires divisibility by 3. -/
def reshapeN3 (seg : List ℚ) : Option (List (List ℚ)) :=
  if seg.length % 3 = 0 then
    some ((List.range (seg.length / 3)).map (fun q =>
      (List.range 3).map (fun i => seg.getD (3 * q + i) 0)))
  else none

/-- The six groups returned by `unravel_vars_full`. -/
structure Unraveled where
  rvecs_cams : List (List ℚ)
  tvecs_cams : List (List ℚ)
  cam_matrices : List (List (List ℚ))
  ks : List (List ℚ)
  rvecs_boards : List (List ℚ)
  tvecs_boards : List (List ℚ)
deriving DecidableEq

/-- `unravel_vars_full(vars_full, n_cams)` (optimization.py 242-266): splits
by the fixed offsets 0, 3n, 6n, 15n, 20n (group sizes 3, 3, 9, 5 per camera)
and halves the remaining board segment (`int(board_pose_vars.size / 2)`).
The source performs no length validation: slices clamp, and the only possible
failures are the numpy reshape divisibility errors modelled by `none`. -/
def unravel_vars_full (vars_full : List ℚ) (n_cams : ℕ) : Option Unraveled := do
  let rv ← reshapeRowsT (npSlice vars_full 0 (3 * n_cams)) 3
  let tv ← reshapeRowsT (npSlice vars_full (3 * n_cams) (6 * n_cams)) 3
  let cm ← reshape33T (npSlice vars_full (6 * n_cams) (15 * n_cams))
  let kk ← reshapeRowsT (npSlice vars_full (15 * n_cams) (20 * n_cams)) 5
  let bp := vars_full.drop (20 * n_cams)
  let rb ← reshapeN3 (bp.take (bp.length / 2))
  let tb ← reshapeN3 (bp.drop (bp.length / 2))
  pure ⟨rv, tv, cm, kk, rb, tb⟩

/-- Helper for stating the round trip: entry `i` of the distortion vector as
it sits in the flat vector (`camParamEntry` at offset 15). -/
def maskedKEntry (freeK : ℕ → Bool) (kToZero : Bool) (cal : Calib) (i : ℕ) : ℚ :=
  camParamEntry freeK kToZero cal (15 + i)

/-- The flat-vector length that matches `camera_count` cameras and
`pose_count` board poses: 20 entries per camera plus 6 per pose. -/
def expected_vars_length (n_cams n_poses : ℕ) : ℕ := 20 * n_cams + 6 * n_poses

/-! ## Free-parameter mask: `make_free_parameter_mask` (optimization.py 318-336) -/

/-- Numpy slice assignment `l[a:b] = f` on a boolean row. -/
def npSet (l : List Bool) (a b : ℕ) (f : ℕ → Bool) : List Bool :=
  l.mapIdx (fun i x => if a ≤ i ∧ i < b then f (i - a) else x)

/-- One 20-entry row of `camera_mask`, with the source's exact sequence of
slice assignments (optimization.py 319-330): initialise to True, write
`[0:3]` and `[3:6]` from the camera-pose toggle, `[6:15]` from the
intrinsic-matrix toggles, then `[10:15]` from the distortion toggles (the
source writes the k toggles at 10:15, inside the intrinsic block), and force
`[0:6]` to False on the coordinate camera. -/
def make_free_parameter_mask_cam_row (free_cam_pose : Bool) (freeA : ℕ → Bool)
    (freeK : ℕ → Bool) (isCoord : Bool) : List Bool :=
  let m0 := List.replicate 20 true
  let m1 := npSet m0 0 3 (fun _ => free_cam_pose)
  let m2 := npSet m1 3 6 (fun _ => free_cam_pose)
  let m3 := npSet m2 6 15 freeA
  let m4 := npSet m3 10 15 freeK
  if isCoord then npSet m4 0 6 (fun _ => false) else m4

/-- `make_free_parameter_mask`: camera rows (camera-major `camera_mask.ravel()`)
followed by the board-pose block `pose_mask.ravel()` (6 entries per pose, all
equal to the board-pose toggle). -/
def make_free_parameter_mask (n_cams : ℕ) (coord_cam_idx : ℕ) (free_cam_pose : Bool)
    (freeA : ℕ → Bool) (freeK : ℕ → Bool) (free_board : Bool) (n_poses : ℕ) : List Bool :=
  ((List.range n_cams).map (fun c =>
    make_free_parameter_mask_cam_row free_cam_pose freeA freeK (c = coord_cam_idx))).flatten
    ++ List.replicate (n_poses * 6) free_board

/-! ## Residual wrapper: `obj_fcn_wrapper` / `make_vars_full`
(optimization.py 13-48, 231-239) -/

/-- The `args` dict as the residual and Jacobian wrappers use it:
`args['vars_full']`, `args['mask_opt']`, and the precalc fields
`corners` (scalar cells; `none` is the NaN sentinel) and
`boards_coords_3d_0`. -/
structure OptArgs where
  vars_full : List ℚ
  mask_opt : List Bool
  corners : List (Option ℚ)
  boards_coords : List ℚ
deriving DecidableEq

/-- Boolean-mask assignment `vars_full[mask_opt] = vars_opt`: positions where
the mask is True receive successive entries of the update, positions where it
is False keep their value. -/
def maskedWrite : List ℚ → List Bool → List ℚ → List ℚ
  | [], _, _ => []
  | f :: fs, [], _ => f :: fs
  | f :: fs, true :: bs, upd => upd.headD f :: maskedWrite fs bs upd.tail
  | f :: fs, false :: bs, upd => f :: maskedWrite fs bs upd

/-- `make_vars_full` (optimization.py 231-239): writes the free entries into
`args['vars_full']` IN PLACE (`vars_full = args['vars_full'];
vars_full[mask_opt] = vars_opt`), so the updated args travel with the result. -/
def make_vars_full (vars_opt : List ℚ) (args : OptArgs) : List ℚ × OptArgs :=
  let vf := maskedWrite args.vars_full args.mask_opt vars_opt
  (vf, { args with vars_full := vf })

/-- `obj_fcn_wrapper` (optimization.py 13-48).  `objFcn` stands for the
external reprojection residual `optimization_autograd.obj_fcn` composed with
the unraveling of `vars_full` (that module is not under src/); it receives the
full vector, `boards_coords_3d_0`, and the NaN-filled copy of the corners
(`corners = args['precalc']['corners'].copy(); corners[isnan] = 0`), and the
wrapper finally zeroes the residuals of untracked corners
(`residuals[corners_mask] = 0`). -/
def obj_fcn_wrapper (objFcn : List ℚ → List ℚ → List ℚ → List ℚ)
    (vars_opt : List ℚ) (args : OptArgs) : List ℚ × OptArgs :=
  let corners0 := args.corners.map (fun c => c.getD 0)
  let va := make_vars_full vars_opt args
  let residuals := objFcn va.1 args.boards_coords corners0
  (List.zipWith (fun c r => if c.isSome then r else 0) args.corners residuals, va.2)

/-! ## Jacobian wrapper tail: masking and free-column selection
(optimization.py 83-97, identical in optfunctions_jacfwd.py 87-101) -/

/-- `obj_fcn_jacobian[:, args['mask_opt']]`: keep the columns where the
free-parameter mask is True. -/
def selectCols (row : List ℚ) (mask : List Bool) : List ℚ :=
  ((row.zip mask).filter (fun p => p.2)).map (fun p => p.1)

/-- Tail of `obj_fcn_jacobian_wrapper`: the assembled Jacobian (one row of
partials per scalar observation cell) has the rows of NaN cells zeroed
(`obj_fcn_jacobian[corners_mask] = 0`) and is then restricted to the free
columns. -/
def jacobian_mask_and_select (corners : List (Option ℚ)) (mask_opt : List Bool)
    (jacRows : List (List ℚ)) : List (List ℚ) :=
  (List.zipWith (fun c row => if c.isSome then row else row.map (fun _ => (0 : ℚ)))
    corners jacRows).map (fun row => selectCols row mask_opt)

/-! ## Jacobian assembly: `calc_cam_jacobian` and the epsilon nudge
(optimization.py 63-68, 100-189; optfunctions_jacfwd.py 104-189) -/

/-- `np.finfo(np.float16).eps` = 2 ^ (-10). -/
def eps16 : ℚ := 1 / 1024

/-- The zero-rotation fix of `obj_fcn_jacobian_wrapper` (optimization.py
65-68), applied to `rvecs_cams.copy()`: any all-zero camera rotation vector is
replaced by the float16 machine epsilon in every component. -/
def nudge_rvecs (rvecs : List (List ℚ)) : List (List ℚ) :=
  rvecs.map (fun r => if r.all (fun x => decide (x = 0)) then r.map (fun _ => eps16) else r)

/-- `get_obj_fcn_jacobians` (optimization.py 360-361) caches exactly
`range(6)` derivative functions. -/
def n_obj_fcn_jacobians : ℕ := 6

/-- The derivative-cache indices demanded by optimization.py's
`calc_cam_jacobian`: `jacobians[offset + i_param]` with offset 0 and
`range(2)`, offset 6 and `range(9)`, offset 15 and `range(5)`
(optimization.py 105-177). -/
def cam_jacobian_indices : List ℕ :=
  ((List.range 2).map (fun i => 0 + i)) ++ ((List.range 9).map (fun i => 6 + i))
    ++ ((List.range 5).map (fun i => 15 + i))

/-- Scatter pattern of the camera-pose block of `calc_cam_jacobian`
(optfunctions_jacfwd.py 108-133): the output array is zero-initialised and the
source writes `obj_fcn_jacobian_cam_pose[i_cam, 0:10, :, :, i_param, i_cam, :]
= j`, so the entry at (cell camera `c`, pose `p`, corner `n`, axis `a`,
parameter `ip`, column camera `c2`, component `m`) holds the derivative value
`J` only when the column camera equals the cell camera AND the pose index lies
below the hard-coded bound 10. -/
def camPoseJacEntry (J : ℕ → ℕ → ℕ → ℕ → ℕ → ℕ → ℚ)
    (c p n a ip c2 m : ℕ) : ℚ :=
  if c2 = c ∧ p < 10 then J c ip p n a m else 0

/-! ## Optimization driver stages: `CamCalibrator.perform_multi_calibration`
(camcalibrator.py 165-201) -/

/-- The four optimization stages of the driver. -/
inductive Stage where
  | poseOnly
  | fullJoint
  | boardPoseRefine
  | finalJoint
deriving DecidableEq

/-- The stage sequence executed by `perform_multi_calibration`:
`optimize_poses` then `optimize_calibration` unconditionally; then, inside
`if self.opts["optimize_board_poses"]:`, BOTH `optimize_board_poses` and the
second `optimize_calibration` ("OPTIMIZING ALL PARAMETERS II"). -/
def perform_multi_calibration_stages (optimize_board_poses : Bool) : List Stage :=
  [Stage.poseOnly, Stage.fullJoint]
    ++ (if optimize_board_poses then [Stage.boardPoseRefine, Stage.finalJoint] else [])

/-! ## Per-frame board-pose refinement: `CamCalibrator.optimize_board_poses`
(camcalibrator.py 265-303) -/

/-- Solver diagnostics (`min_result`): cost, optimality, residual vector. -/
structure MinResult where
  cost : ℚ
  optimality : ℚ
  fun_res : List ℚ
deriving DecidableEq

/-- Modelled from the spec: the result of one call to
`camfunctions.optimize_calib_parameters` (module `camfunctions` is not under
src/).  Per the spec the external nonlinear least-squares solve returns the
refined per-camera parameter blocks, the refined board pose, and
cost/optimality/residual diagnostics. -/
structure SolveResult where
  calibs_fit : List (List ℚ)
  rvec_board : List ℚ
  tvec_board : List ℚ
  min_result : MinResult
deriving DecidableEq

/-- Distance between two frame indices. -/
def natDist (a b : ℕ) : ℕ := max a b - min a b

/-- Modelled from the spec: `helper.nearest_element` (module `helper` is not
under src/): the element of `good` nearest to `i` by index distance
("nearest frame index by position in the sequence among the good frames"; the
source's tie-break is unspecified, the first minimum in list order is kept
here).  The source comments `nearest_i_pose = i_pose if i_pose in good_poses`. -/
def nearest_element (i : ℕ) (good : List ℕ) : ℕ :=
  good.foldl (fun best g => if natDist g i < natDist best i then g else best) (good.headD i)

/-- The good-pose set of `optimize_board_poses` (camcalibrator.py 281-286):
start from all pose indices and remove, camera by camera, every pose with any
residual cell above `opts['max_allowed_res']`.  `prev_fun c p e` is the
stage-2 residual of camera `c`, pose `p`, cell `e` (corner and axis flattened),
`C` cameras, `P` poses, `E` cells per (camera, pose). -/
def good_poses_model (prev_fun : ℕ → ℕ → ℕ → ℚ) (C P E : ℕ) (thr : ℚ) : List ℕ :=
  (List.range P).filter (fun p =>
    (List.range C).all (fun c => (List.range E).all (fun e => !decide (thr < prev_fun c p e))))

/-- The loop state of `optimize_board_poses`: the last single-frame solve's
calibs and diagnostics plus the accumulated per-pose board poses. -/
structure BoardPosesOut where
  calibs_fit : List (List ℚ)
  rvecs_boards : ℕ → List ℚ
  tvecs_boards : ℕ → List ℚ
  min_result : MinResult

/-- One iteration of the pose loop (camcalibrator.py 291-301): solve frame
`i` warm-started at `nearest_element i good`, store the refined board pose at
index `i` (`rvecs_boards[i_pose], tvecs_boards[i_pose] = ...`), and overwrite
`calibs_fit_pose` and `min_result` with this solve's outputs. -/
def obp_step (solve : ℕ → ℕ → SolveResult) (good : List ℕ)
    (st : BoardPosesOut) (i : ℕ) : BoardPosesOut :=
  let r := solve i (nearest_element i good)
  { calibs_fit := r.calibs_fit
    rvecs_boards := fun j => if j = i then r.rvec_board else st.rvecs_boards j
    tvecs_boards := fun j => if j = i then r.tvec_board else st.tvecs_boards j
    min_result := r.min_result }

/-- `optimize_board_poses` (camcalibrator.py 265-303): iterate the
single-frame solve over EVERY pose index `range(len(calibs_multi[0]["rvecs"]))`
(the good-pose set only chooses warm starts), starting from the stage-2 board
poses `rvecs0`/`tvecs0`.  `solve i j` stands for
`optimize_calib_parameters(corners[:, [i]], calibs warm-started at pose j,
...)` with the all-fixed camera mask of this stage (`cam_pose`, `A`, `k`,
`xi` all not free). -/
def optimize_board_poses_model (solve : ℕ → ℕ → SolveResult) (good : List ℕ) (P : ℕ)
    (rvecs0 tvecs0 : ℕ → List ℚ) (calibs0 : List (List ℚ)) (mr0 : MinResult) :
    BoardPosesOut :=
  (List.range P).foldl (obp_step solve good) ⟨calibs0, rvecs0, tvecs0, mr0⟩

/-- A concrete one-camera calibration used for evaluation: rotation entries 1,
translation entries 2, intrinsic entries 3, distortion entries 7, board-pose
rotations 4 and translations 5. -/
def calib7 : Calib :=
  ⟨fun _ => 1, fun _ => 2, fun _ _ => 3, fun _ => 7, fun _ _ => 4, fun _ _ => 5⟩

/-! ## General helper lemmas -/

/-- Dropping past a prefix of an append. -/
theorem drop_append_add {α : Type} (l₁ l₂ : List α) (t : ℕ) :
    (l₁ ++ l₂).drop (l₁.length + t) = l₂.drop t := by
  induction l₁ with
  | nil => simp
  | cons a l ih => simpa [Nat.succ_add] using ih

/-- Taking past a prefix of an append. -/
theorem take_append_add {α : Type} (l₁ l₂ : List α) (t : ℕ) :
    (l₁ ++ l₂).take (l₁.length + t) = l₁ ++ l₂.take t := by
  induction l₁ with
  | nil => simp
  | cons a l ih => simpa [Nat.succ_add] using ih

/-- Reading inside the prefix of an append. -/
theorem getD_append_lt {α : Type} (l₁ l₂ : List α) (d : α) (c : ℕ) (h : c < l₁.length) :
    (l₁ ++ l₂).getD c d = l₁.getD c d := by
  induction l₁ generalizing c with
  | nil => simp at h
  | cons a l ih =>
    cases c with
    | zero => rfl
    | succ c => simpa using ih c (by simpa using h)

/-- Reading past the prefix of an append. -/
theorem getD_append_add {α : Type} (l₁ l₂ : List α) (d : α) (t : ℕ) :
    (l₁ ++ l₂).getD (l₁.length + t) d = l₂.getD t d := by
  induction l₁ with
  | nil => simp
  | cons a l ih => simpa [Nat.succ_add] using ih

/-- A length-3 list is the list of its three reads. -/
theorem len3_eta (l : List ℚ) (h : l.length = 3) :
    [l.getD 0 0, l.getD 1 0, l.getD 2 0] = l := by
  obtain ⟨a, b, c, rfl⟩ := List.length_eq_three.mp h
  rfl

/-- A map over the index range of a list is the map over the list. -/
theorem range_map_eq_map {α β : Type} (L : List α) (g : α → β) (F : ℕ → β)
    (hF : ∀ (j : ℕ) (h : j < L.length), F j = g (L.get ⟨j, h⟩)) :
    (List.range L.length).map F = L.map g := by
  apply List.ext_getElem
  · simp
  · intro j h1 h2
    simp only [List.getElem_map, List.getElem_range]
    rw [hF j (by simpa using h2)]
    simp [List.get_eq_getElem]

/-- Component of `zipWith` at an index where both inputs are defined. -/
theorem zipWith_getq {α β γ : Type} (f : α → β → γ) :
    ∀ (as : List α) (bs : List β) (i : ℕ) (a : α) (b : β),
      as.get? i = some a → bs.get? i = some b →
      (List.zipWith f as bs).get? i = some (f a b) := by
  intro as
  induction as with
  | nil => intro bs i a b ha _; simp at ha
  | cons x xs ih =>
    intro bs i a b ha hb
    cases bs with
    | nil => simp at hb
    | cons y ys =>
      cases i with
      | zero =>
        simp only [List.get?] at ha hb
        obtain rfl := Option.some.inj ha
        obtain rfl := Option.some.inj hb
        rfl
      | succ n =>
        simp only [List.get?] at ha hb
        simpa only [List.zipWith, List.get?] using ih ys n a b ha hb

/-- Every value selected by `selectCols` comes from the row. -/
theorem mem_selectCols {x : ℚ} {r : List ℚ} {m : List Bool}
    (h : x ∈ selectCols r m) : x ∈ r := by
  unfold selectCols at h
  obtain ⟨⟨y, b⟩, hp, rfl⟩ := List.mem_map.mp h
  exact (List.of_mem_zip (List.mem_filter.mp hp).1).1

/-- Writing the same update through the same boolean mask twice equals writing
it once. -/
theorem maskedWrite_idem : ∀ (full : List ℚ) (mask : List Bool) (upd : List ℚ),
    maskedWrite (maskedWrite full mask upd) mask upd = maskedWrite full mask upd := by
  intro full
  induction full with
  | nil => intro mask upd; rfl
  | cons f fs ih =>
    intro mask upd
    cases mask with
    | nil => rfl
    | cons b bs =>
      cases b with
      | false => simpa [maskedWrite] using ih bs upd
      | true =>
        cases upd with
        | nil => simp [maskedWrite, ih bs]
        | cons u us => simp [maskedWrite, ih bs]

/-- Unfolding of the residual wrapper's first component. -/
theorem obj_fcn_wrapper_fst (objFcn : List ℚ → List ℚ → List ℚ → List ℚ)
    (vars_opt : List ℚ) (args : OptArgs) :
    (obj_fcn_wrapper objFcn vars_opt args).1 =
      List.zipWith (fun c r => if c.isSome then r else 0) args.corners
        (objFcn (maskedWrite args.vars_full args.mask_opt vars_opt) args.boards_coords
          (args.corners.map (fun c => c.getD 0))) := rfl

/-! ## Claim theorems -/

/-- C2: for every parameter vector and every observation cell holding the
not-observed (NaN) sentinel, the residual returned by `obj_fcn_wrapper` at
that cell is exactly 0, and the corresponding row of the assembled Jacobian,
after the wrapper's masking and free-column selection, is exactly the zero
vector.  `hshape` is the external residual function's contract of one
residual per observation cell. -/
theorem sentinel_cells_zero_residual_and_jacobian
    (objFcn : List ℚ → List ℚ → List ℚ → List ℚ) (vars_opt : List ℚ) (args : OptArgs)
    (jacRows : List (List ℚ)) (i : ℕ)
    (hcell : args.corners.get? i = some none)
    (hshape : ∀ vf bc cr, (objFcn vf bc cr).length = cr.length)
    (hjac : i < jacRows.length) :
    (obj_fcn_wrapper objFcn vars_opt args).1.get? i = some 0 ∧
    ∃ row, (jacobian_mask_and_select args.corners args.mask_opt jacRows).get? i = some row
        ∧ ∀ x ∈ row, x = 0 := by
  have hi : i < args.corners.length := by
    by_contra hlt
    rw [List.get?_eq_none.mpr (Nat.le_of_not_lt hlt)] at hcell
    exact Option.noConfusion hcell
  constructor
  · rw [obj_fcn_wrapper_fst]
    have hlen : (objFcn (maskedWrite args.vars_full args.mask_opt vars_opt)
        args.boards_coords (args.corners.map (fun c => c.getD 0))).length
        = args.corners.length := by rw [hshape]; simp
    have hilen : i < (objFcn (maskedWrite args.vars_full args.mask_opt vars_opt)
        args.boards_coords (args.corners.map (fun c => c.getD 0))).length := by
      rw [hlen]; exact hi
    rw [zipWith_getq _ _ _ _ _ _ hcell (List.get?_eq_get hilen)]
    rfl
  · have hrow := List.get?_eq_get hjac
    refine ⟨selectCols ((jacRows.get ⟨i, hjac⟩).map (fun _ => 0)) args.mask_opt, ?_, ?_⟩
    · show ((List.zipWith (fun c row => if c.isSome then row
          else row.map (fun _ => (0 : ℚ))) args.corners jacRows).map
          (fun row => selectCols row args.mask_opt)).get? i = _
      rw [List.get?_map, zipWith_getq _ _ _ _ _ _ hcell hrow]
      rfl
    · intro x hx
      obtain ⟨y, _, rfl⟩ := List.mem_map.mp (mem_selectCols hx)
      rfl

/-- C2 witness: a concrete one-cell sentinel observation with a nonzero
external residual and a nonzero assembled Jacobian row. -/
theorem sentinel_cells_zero_residual_and_jacobian_witness :
    ((OptArgs.mk [] [true, false] [none] []).corners.get? 0 = some none) ∧
    (0 < ([[(1 : ℚ), 2]] : List (List ℚ)).length) ∧
    ((obj_fcn_wrapper (fun _ _ cr => cr.map (fun _ => 7)) []
        (OptArgs.mk [] [true, false] [none] [])).1.get? 0 = some 0 ∧
      ∃ row, (jacobian_mask_and_select [none] [true, false] [[1, 2]]).get? 0 = some row
          ∧ ∀ x ∈ row, x = 0) :=
  ⟨rfl, by decide,
    sentinel_cells_zero_residual_and_jacobian (fun _ _ cr => cr.map (fun _ => 7)) []
      (OptArgs.mk [] [true, false] [none] []) [[1, 2]] 0 rfl
      (fun _ _ cr => by simp) (by decide)⟩

/-- C3 (code bug): in `make_free_parameter_mask` the distortion toggles are
written to columns 10..14 — intrinsic-matrix columns — instead of the
distortion columns 15..19, which stay True regardless.  Concretely, with the
intrinsic toggles all True and the distortion toggles all False, camera 1's
mask is False at column 12 (an intrinsic entry) and True at column 17 (a
distortion entry). -/
theorem distortion_toggle_writes_intrinsic_columns :
    (make_free_parameter_mask 2 0 true (fun _ => true) (fun _ => false) true 1).getD
        (20 * 1 + 12) false = false ∧
    (make_free_parameter_mask 2 0 true (fun _ => true) (fun _ => false) true 1).getD
        (20 * 1 + 17) false = true := by decide

/-- C4 counterexample: with `optimize_board_poses` configured off, the final
joint stage ("OPTIMIZING ALL PARAMETERS II") does NOT run — it sits inside
the same conditional as stage 3, so the claim that only stage 3 can be
skipped is false. -/
theorem final_joint_stage_skipped_when_stage3_off :
    Stage.finalJoint ∉ perform_multi_calibration_stages false := by decide

/-- C4 as amended: the pose-only and full joint stages run unconditionally,
while the per-frame board-pose refinement AND the final joint stage run
exactly when `optimize_board_poses` is configured on. -/
theorem stage_schedule (b : Bool) :
    Stage.poseOnly ∈ perform_multi_calibration_stages b ∧
    Stage.fullJoint ∈ perform_multi_calibration_stages b ∧
    (Stage.boardPoseRefine ∈ perform_multi_calibration_stages b ↔ b = true) ∧
    (Stage.finalJoint ∈ perform_multi_calibration_stages b ↔ b = true) := by
  cases b <;> decide

/-- C5 (code bug): with a derivative evaluator returning 1 everywhere, the
camera-pose Jacobian block scatters 1 at pose 9 of the cell camera's own
column block and 0 elsewhere in other cameras' blocks, but scatters 0 at pose
10 — frames beyond the hard-coded `[0:10]` slice are never evaluated or
scattered; moreover optimization.py's variant demands derivative-cache index
14 while only 6 derivatives are cached. -/
theorem cam_jacobian_scatter_drops_frames_beyond_ten :
    camPoseJacEntry (fun _ _ _ _ _ _ => 1) 0 10 0 0 0 0 0 = 0 ∧
    camPoseJacEntry (fun _ _ _ _ _ _ => 1) 0 9 0 0 0 0 0 = 1 ∧
    camPoseJacEntry (fun _ _ _ _ _ _ => 1) 0 9 0 0 0 1 0 = 0 ∧
    14 ∈ cam_jacobian_indices ∧ n_obj_fcn_jacobians = 6 := by decide

/-- C6 counterexample: evaluating the residual wrapper does NOT leave its
arguments unchanged — `make_vars_full` writes the free entries into
`args['vars_full']` in place, so after one evaluation the stored full vector
differs from the original. -/
theorem obj_fcn_wrapper_mutates_vars_full :
    (obj_fcn_wrapper (fun _ _ cr => cr) [1] (OptArgs.mk [0] [true] [] [])).2.vars_full
      ≠ (OptArgs.mk [0] [true] [] []).vars_full := by decide

/-- C6 as amended: the residual wrapper writes the free entries of the update
into `args['vars_full']` in place; the observation array, mask and board
coordinates are untouched (the NaN fill happens on a copy), and because the
masked write is idempotent, a second evaluation with the same free vector and
the updated args returns exactly the same residuals and the same state. -/
theorem obj_fcn_wrapper_state_idempotent
    (objFcn : List ℚ → List ℚ → List ℚ → List ℚ) (vars_opt : List ℚ) (args : OptArgs) :
    (obj_fcn_wrapper objFcn vars_opt args).2.corners = args.corners ∧
    (obj_fcn_wrapper objFcn vars_opt args).2.mask_opt = args.mask_opt ∧
    (obj_fcn_wrapper objFcn vars_opt args).2.boards_coords = args.boards_coords ∧
    (obj_fcn_wrapper objFcn vars_opt args).2.vars_full
        = maskedWrite args.vars_full args.mask_opt vars_opt ∧
    obj_fcn_wrapper objFcn vars_opt (obj_fcn_wrapper objFcn vars_opt args).2
        = obj_fcn_wrapper objFcn vars_opt args := by
  refine ⟨rfl, rfl, rfl, rfl, ?_⟩
  simp [obj_fcn_wrapper, make_vars_full, maskedWrite_idem]

/-- C7 (code bug): the zero-rotation epsilon nudge itself works as claimed —
an all-zero camera rotation is replaced by the nonzero float16 epsilon in a
working copy — but optimization.py's `calc_cam_jacobian` then demands
derivative-cache index 14 (offset 6 + `range(9)`) though `get_obj_fcn_jacobians`
caches only 6 derivatives, so Jacobian assembly cannot complete for any
input, zero rotation included. -/
theorem zero_rotation_nudge_and_jacobian_crash :
    nudge_rvecs [[0, 0, 0], [1, 2, 3]] = [[eps16, eps16, eps16], [1, 2, 3]] ∧
    eps16 ≠ 0 ∧ 14 ∈ cam_jacobian_indices ∧ n_obj_fcn_jacobians = 6 := by
  refine ⟨?_, ?_, by decide, rfl⟩
  · norm_num [nudge_rvecs]
    rfl
  · norm_num [eps16]

/-- C8 counterexample: a vector of length 15 with one camera matches no valid
total (the minimum valid total for one camera is 20), yet `unravel_vars_full`
returns per-camera and per-pose values instead of failing. -/
theorem unravel_accepts_mismatched_length :
    (unravel_vars_full (List.replicate 15 (1 : ℚ)) 1).isSome = true ∧
    (List.replicate 15 (1 : ℚ)).length < expected_vars_length 1 0 := by decide

/-- C8 as amended: `unravel_vars_full` performs no length validation and
raises no ShapeMismatch; a mismatched vector either trips a numpy reshape
error on an indivisible segment or is silently split into truncated/empty
groups — every length-15 vector with one camera (a length matching no pose
count) unravels successfully. -/
theorem unravel_no_length_check (v : List ℚ) (n_poses : ℕ) (h : v.length = 15) :
    expected_vars_length 1 n_poses ≠ 15 ∧ (unravel_vars_full v 1).isSome = true := by
  constructor
  · simp only [expected_vars_length]; omega
  · simp [unravel_vars_full, npSlice, reshapeRowsT, reshape33T, reshapeN3,
      List.length_take, List.length_drop, h]

/-- C8 witness: the amended statement at a concrete length-15 vector and pose
count 2. -/
theorem unravel_no_length_check_witness :
    (List.replicate 15 (0 : ℚ)).length = 15 ∧
    (expected_vars_length 1 2 ≠ 15 ∧
      (unravel_vars_full (List.replicate 15 (0 : ℚ)) 1).isSome = true) :=
  ⟨by decide, unravel_no_length_check (List.replicate 15 0) 2 (by decide)⟩

/-! ## Layout lemmas for the flat parameter vector -/

/-- A parameter column has one entry per camera. -/
theorem camParamCol_length (fK : ℕ → Bool) (kZ : Bool) (cs : List Calib) (p : ℕ) :
    (camParamCol fK kZ cs p).length = cs.length := by
  simp [camParamCol]

/-- A block of `m` columns has `m` entries per camera. -/
theorem camParamCols_length (fK : ℕ → Bool) (kZ : Bool) (cs : List Calib) :
    ∀ (m s : ℕ), (camParamCols fK kZ cs s m).length = m * cs.length := by
  intro m
  induction m with
  | zero => intro s; simp [camParamCols]
  | succ m ih =>
    intro s
    show (camParamCol fK kZ cs s ++ camParamCols fK kZ cs (s + 1) m).length = (m + 1) * cs.length
    rw [List.length_append, camParamCol_length, ih]
    ring

/-- Dropping `j` whole columns from a column block (with a tail appended)
leaves the remaining columns. -/
theorem camParamCols_drop (fK : ℕ → Bool) (kZ : Bool) (cs : List Calib) (rest : List ℚ) :
    ∀ (j m s : ℕ), j ≤ m →
      ((camParamCols fK kZ cs s m) ++ rest).drop (j * cs.length)
        = (camParamCols fK kZ cs (s + j) (m - j)) ++ rest := by
  intro j
  induction j with
  | zero => intro m s _; simp
  | succ j ih =>
    intro m s h
    obtain ⟨m', rfl⟩ : ∃ m', m = m' + 1 := ⟨m - 1, by omega⟩
    show ((camParamCol fK kZ cs s ++ camParamCols fK kZ cs (s + 1) m') ++ rest).drop
        ((j + 1) * cs.length) = _
    rw [List.append_assoc]
    have hlen : (j + 1) * cs.length = (camParamCol fK kZ cs s).length + j * cs.length := by
      rw [camParamCol_length]; ring
    rw [hlen, drop_append_add, ih m' (s + 1) (by omega)]
    have e1 : s + 1 + j = s + (j + 1) := by omega
    have e2 : m' - j = m' + 1 - (j + 1) := by omega
    rw [e1, e2]

/-- Taking `j` whole columns from a column block (with a tail appended)
yields the first `j` columns. -/
theorem camParamCols_take (fK : ℕ → Bool) (kZ : Bool) (cs : List Calib) (rest : List ℚ) :
    ∀ (j m s : ℕ), j ≤ m →
      ((camParamCols fK kZ cs s m) ++ rest).take (j * cs.length)
        = camParamCols fK kZ cs s j := by
  intro j
  induction j with
  | zero => intro m s _; simp [camParamCols]
  | succ j ih =>
    intro m s h
    obtain ⟨m', rfl⟩ : ∃ m', m = m' + 1 := ⟨m - 1, by omega⟩
    show ((camParamCol fK kZ cs s ++ camParamCols fK kZ cs (s + 1) m') ++ rest).take
        ((j + 1) * cs.length) = camParamCols fK kZ cs s (j + 1)
    rw [List.append_assoc]
    have hlen : (j + 1) * cs.length = (camParamCol fK kZ cs s).length + j * cs.length := by
      rw [camParamCol_length]; ring
    rw [hlen, take_append_add, ih m' (s + 1) (by omega)]
    rfl

/-- Reading entry `i * n + c` of a column block reads camera `c` in column
`s + i`. -/
theorem camParamCols_getD (fK : ℕ → Bool) (kZ : Bool) (cs : List Calib) :
    ∀ (i m s c : ℕ), i < m → c < cs.length →
      (camParamCols fK kZ cs s m).getD (i * cs.length + c) 0
        = (camParamCol fK kZ cs (s + i)).getD c 0 := by
  intro i
  induction i with
  | zero =>
    intro m s c hm hc
    obtain ⟨m', rfl⟩ : ∃ m', m = m' + 1 := ⟨m - 1, by omega⟩
    show (camParamCol fK kZ cs s ++ camParamCols fK kZ cs (s + 1) m').getD
        (0 * cs.length + c) 0 = _
    rw [Nat.zero_mul, Nat.zero_add,
      getD_append_lt _ _ _ _ (by rw [camParamCol_length]; exact hc), Nat.add_zero]
  | succ i ih =>
    intro m s c hm hc
    obtain ⟨m', rfl⟩ : ∃ m', m = m' + 1 := ⟨m - 1, by omega⟩
    show (camParamCol fK kZ cs s ++ camParamCols fK kZ cs (s + 1) m').getD
        ((i + 1) * cs.length + c) 0 = _
    have hlen : (i + 1) * cs.length + c
        = (camParamCol fK kZ cs s).length + (i * cs.length + c) := by
      rw [camParamCol_length]; ring
    rw [hlen, getD_append_add, ih m' (s + 1) c (by omega) hc]
    have e1 : s + 1 + i = s + (i + 1) := by omega
    rw [e1]

/-- Reading a parameter column at camera index `c` evaluates the entry of
camera `c`. -/
theorem camParamCol_getD (fK : ℕ → Bool) (kZ : Bool) (cs : List Calib) (p c : ℕ)
    (h : c < cs.length) :
    (camParamCol fK kZ cs p).getD c 0 = camParamEntry fK kZ (cs.get ⟨c, h⟩) p := by
  simp [camParamCol, List.getD_eq_getElem?_getD, List.getElem?_map,
    List.getElem?_eq_getElem h, List.get_eq_getElem]

/-- The fold of `make_common_pose_params` preserves vectors of length 3. -/
theorem foldl_commonPoseStep_len (t : ℕ) :
    ∀ (l : List (Calib × List Bool)) (acc : List ℚ × List ℚ),
      acc.1.length = 3 → acc.2.length = 3 →
      ((l.foldl (commonPoseStep t) acc).1.length = 3
        ∧ (l.foldl (commonPoseStep t) acc).2.length = 3) := by
  intro l
  induction l with
  | nil => intro acc h1 h2; exact ⟨h1, h2⟩
  | cons x xs ih =>
    intro acc h1 h2
    apply ih
    · unfold commonPoseStep; split <;> simp [h1]
    · unfold commonPoseStep; split <;> simp [h2]

/-- Every board rotation row has 3 entries. -/
theorem boardRvecs_row_len (cs : List Calib) (fm : List (List Bool)) :
    ∀ r ∈ boardRvecs cs fm, r.length = 3 := by
  intro r hr
  obtain ⟨t, _, rfl⟩ := List.mem_map.mp hr
  exact (foldl_commonPoseStep_len t (cs.zip fm) ([0, 0, 0], [0, 0, 0]) rfl rfl).1

/-- Every board translation row has 3 entries. -/
theorem boardTvecs_row_len (cs : List Calib) (fm : List (List Bool)) :
    ∀ r ∈ boardTvecs cs fm, r.length = 3 := by
  intro r hr
  obtain ⟨t, _, rfl⟩ := List.mem_map.mp hr
  exact (foldl_commonPoseStep_len t (cs.zip fm) ([0, 0, 0], [0, 0, 0]) rfl rfl).2

/-- Flattening rows of length 3 gives three entries per row. -/
theorem flatten_len3 :
    ∀ (rows : List (List ℚ)), (∀ r ∈ rows, r.length = 3) →
      rows.flatten.length = 3 * rows.length := by
  intro rows
  induction rows with
  | nil => intro _; rfl
  | cons r rest ih =>
    intro h
    show (r ++ rest.flatten).length = 3 * (rest.length + 1)
    rw [List.length_append, h r (List.mem_cons_self r rest),
      ih (fun x hx => h x (List.mem_cons_of_mem r hx))]
    ring

/-- Reading entry `3 * q + i` of a flatten of length-3 rows reads entry `i`
of row `q`. -/
theorem flatten_getD3 :
    ∀ (rows : List (List ℚ)), (∀ r ∈ rows, r.length = 3) →
      ∀ (q i : ℕ) (hq : q < rows.length), i < 3 →
        rows.flatten.getD (3 * q + i) 0 = (rows.get ⟨q, hq⟩).getD i 0 := by
  intro rows
  induction rows with
  | nil => intro _ q i hq _; exact absurd hq (Nat.not_lt_zero q)
  | cons r rest ih =>
    intro h q i hq hi
    cases q with
    | zero =>
      show (r ++ rest.flatten).getD (3 * 0 + i) 0 = r.getD i 0
      rw [Nat.mul_zero, Nat.zero_add,
        getD_append_lt _ _ _ _ (by rw [h r (List.mem_cons_self r rest)]; exact hi)]
    | succ q =>
      show (r ++ rest.flatten).getD (3 * (q + 1) + i) 0 = _
      have e : 3 * (q + 1) + i = r.length + (3 * q + i) := by
        rw [h r (List.mem_cons_self r rest)]; ring
      rw [e, getD_append_add]
      exact ih (fun x hx => h x (List.mem_cons_of_mem r hx)) q i (by simpa using hq) hi

/-- Slicing whole column groups out of the flat vector. -/
theorem make_init_slice (cs : List Calib) (fm : List (List Bool)) (fK : ℕ → Bool) (kZ : Bool)
    (a b : ℕ) (ha : a ≤ b) (hb : b ≤ 20) :
    npSlice (make_initialization_vars_full cs fm fK kZ) (a * cs.length) (b * cs.length)
      = camParamCols fK kZ cs a (b - a) := by
  unfold npSlice make_initialization_vars_full
  rw [List.append_assoc, camParamCols_drop fK kZ cs _ a 20 0 (by omega)]
  have e0 : (0 : ℕ) + a = a := by omega
  have e1 : b * cs.length - a * cs.length = (b - a) * cs.length := (Nat.sub_mul b a _).symm
  rw [e0, e1, camParamCols_take fK kZ cs _ (b - a) (20 - a) a (by omega)]

/-- Combined column read: entry `i * n + c` of a column block is parameter
`s + i` of camera `c`. -/
theorem camParamCols_getD_entry (fK : ℕ → Bool) (kZ : Bool) (cs : List Calib)
    (i m s c : ℕ) (him : i < m) (hc : c < cs.length) :
    (camParamCols fK kZ cs s m).getD (i * cs.length + c) 0
      = camParamEntry fK kZ (cs.get ⟨c, hc⟩) (s + i) := by
  rw [camParamCols_getD fK kZ cs i m s c him hc, camParamCol_getD fK kZ cs (s + i) c hc]

/-- The camera-rotation block unravels to the per-camera rotation vectors. -/
theorem unravel_rvecs_cams (cs : List Calib) (fm : List (List Bool)) (fK : ℕ → Bool) (kZ : Bool) :
    reshapeRowsT (npSlice (make_initialization_vars_full cs fm fK kZ) 0 (3 * cs.length)) 3
      = some (cs.map (fun cal => [cal.rvec_cam 0, cal.rvec_cam 1, cal.rvec_cam 2])) := by
  have hseg : npSlice (make_initialization_vars_full cs fm fK kZ) 0 (3 * cs.length)
      = camParamCols fK kZ cs 0 3 := by
    simpa using make_init_slice cs fm fK kZ 0 3 (by omega) (by omega)
  rw [hseg]
  unfold reshapeRowsT
  rw [camParamCols_length fK kZ cs 3 0, if_pos (Nat.mul_mod_right 3 cs.length),
    Nat.mul_div_cancel_left cs.length (by norm_num : 0 < 3)]
  congr 1
  apply range_map_eq_map
  intro j hj
  rw [show List.range 3 = [0, 1, 2] from rfl]
  simp only [List.map_cons, List.map_nil]
  rw [camParamCols_getD_entry fK kZ cs 0 3 0 j (by norm_num) hj,
    camParamCols_getD_entry fK kZ cs 1 3 0 j (by norm_num) hj,
    camParamCols_getD_entry fK kZ cs 2 3 0 j (by norm_num) hj]
  simp [camParamEntry]

/-- The camera-translation block unravels to the per-camera translations. -/
theorem unravel_tvecs_cams (cs : List Calib) (fm : List (List Bool)) (fK : ℕ → Bool) (kZ : Bool) :
    reshapeRowsT (npSlice (make_initialization_vars_full cs fm fK kZ)
        (3 * cs.length) (6 * cs.length)) 3
      = some (cs.map (fun cal => [cal.tvec_cam 0, cal.tvec_cam 1, cal.tvec_cam 2])) := by
  have hseg : npSlice (make_initialization_vars_full cs fm fK kZ) (3 * cs.length) (6 * cs.length)
      = camParamCols fK kZ cs 3 3 := by
    simpa using make_init_slice cs fm fK kZ 3 6 (by omega) (by omega)
  rw [hseg]
  unfold reshapeRowsT
  rw [camParamCols_length fK kZ cs 3 3, if_pos (Nat.mul_mod_right 3 cs.length),
    Nat.mul_div_cancel_left cs.length (by norm_num : 0 < 3)]
  congr 1
  apply range_map_eq_map
  intro j hj
  rw [show List.range 3 = [0, 1, 2] from rfl]
  simp only [List.map_cons, List.map_nil]
  rw [camParamCols_getD_entry fK kZ cs 0 3 3 j (by norm_num) hj,
    camParamCols_getD_entry fK kZ cs 1 3 3 j (by norm_num) hj,
    camParamCols_getD_entry fK kZ cs 2 3 3 j (by norm_num) hj]
  simp [camParamEntry]

/-- The intrinsic-matrix block unravels to the per-camera 3 x 3 matrices. -/
theorem unravel_cam_matrices (cs : List Calib) (fm : List (List Bool)) (fK : ℕ → Bool)
    (kZ : Bool) :
    reshape33T (npSlice (make_initialization_vars_full cs fm fK kZ)
        (6 * cs.length) (15 * cs.length))
      = some (cs.map (fun cal =>
          [[cal.A 0 0, cal.A 0 1, cal.A 0 2],
           [cal.A 1 0, cal.A 1 1, cal.A 1 2],
           [cal.A 2 0, cal.A 2 1, cal.A 2 2]])) := by
  have hseg : npSlice (make_initialization_vars_full cs fm fK kZ) (6 * cs.length) (15 * cs.length)
      = camParamCols fK kZ cs 6 9 := by
    simpa using make_init_slice cs fm fK kZ 6 15 (by omega) (by omega)
  rw [hseg]
  unfold reshape33T
  rw [camParamCols_length fK kZ cs 9 6, if_pos (Nat.mul_mod_right 9 cs.length),
    Nat.mul_div_cancel_left cs.length (by norm_num : 0 < 9)]
  congr 1
  apply range_map_eq_map
  intro c hc
  rw [show List.range 3 = [0, 1, 2] from rfl]
  simp only [List.map_cons, List.map_nil]
  rw [camParamCols_getD_entry fK kZ cs (3 * 0 + 0) 9 6 c (by norm_num) hc,
    camParamCols_getD_entry fK kZ cs (3 * 0 + 1) 9 6 c (by norm_num) hc,
    camParamCols_getD_entry fK kZ cs (3 * 0 + 2) 9 6 c (by norm_num) hc,
    camParamCols_getD_entry fK kZ cs (3 * 1 + 0) 9 6 c (by norm_num) hc,
    camParamCols_getD_entry fK kZ cs (3 * 1 + 1) 9 6 c (by norm_num) hc,
    camParamCols_getD_entry fK kZ cs (3 * 1 + 2) 9 6 c (by norm_num) hc,
    camParamCols_getD_entry fK kZ cs (3 * 2 + 0) 9 6 c (by norm_num) hc,
    camParamCols_getD_entry fK kZ cs (3 * 2 + 1) 9 6 c (by norm_num) hc,
    camParamCols_getD_entry fK kZ cs (3 * 2 + 2) 9 6 c (by norm_num) hc]
  simp [camParamEntry]

/-- The distortion block unravels to the per-camera distortion vectors as
they sit in the flat vector (free entries kept, fixed ones zeroed when
`k_to_zero`). -/
theorem unravel_ks (cs : List Calib) (fm : List (List Bool)) (fK : ℕ → Bool) (kZ : Bool) :
    reshapeRowsT (npSlice (make_initialization_vars_full cs fm fK kZ)
        (15 * cs.length) (20 * cs.length)) 5
      = some (cs.map (fun cal =>
          [maskedKEntry fK kZ cal 0, maskedKEntry fK kZ cal 1, maskedKEntry fK kZ cal 2,
           maskedKEntry fK kZ cal 3, maskedKEntry fK kZ cal 4])) := by
  have hseg : npSlice (make_initialization_vars_full cs fm fK kZ)
      (15 * cs.length) (20 * cs.length) = camParamCols fK kZ cs 15 5 := by
    simpa using make_init_slice cs fm fK kZ 15 20 (by omega) (by omega)
  rw [hseg]
  unfold reshapeRowsT
  rw [camParamCols_length fK kZ cs 5 15, if_pos (Nat.mul_mod_right 5 cs.length),
    Nat.mul_div_cancel_left cs.length (by norm_num : 0 < 5)]
  congr 1
  apply range_map_eq_map
  intro j hj
  rw [show List.range 5 = [0, 1, 2, 3, 4] from rfl]
  simp only [List.map_cons, List.map_nil]
  rw [camParamCols_getD_entry fK kZ cs 0 5 15 j (by norm_num) hj,
    camParamCols_getD_entry fK kZ cs 1 5 15 j (by norm_num) hj,
    camParamCols_getD_entry fK kZ cs 2 5 15 j (by norm_num) hj,
    camParamCols_getD_entry fK kZ cs 3 5 15 j (by norm_num) hj,
    camParamCols_getD_entry fK kZ cs 4 5 15 j (by norm_num) hj]
  simp [maskedKEntry]

/-- Dropping the camera block of the flat vector leaves the board segment. -/
theorem make_init_drop_cams (cs : List Calib) (fm : List (List Bool)) (fK : ℕ → Bool)
    (kZ : Bool) :
    (make_initialization_vars_full cs fm fK kZ).drop (20 * cs.length)
      = (boardRvecs cs fm).flatten ++ (boardTvecs cs fm).flatten := by
  unfold make_initialization_vars_full
  rw [List.append_assoc]
  simpa [camParamCols] using camParamCols_drop fK kZ cs
    ((boardRvecs cs fm).flatten ++ (boardTvecs cs fm).flatten) 20 20 0 (by omega)

/-- Halving the board segment takes exactly the rotation half. -/
theorem bp_take_rvecs (cs : List Calib) (fm : List (List Bool)) :
    ((boardRvecs cs fm).flatten ++ (boardTvecs cs fm).flatten).take
        (((boardRvecs cs fm).flatten ++ (boardTvecs cs fm).flatten).length / 2)
      = (boardRvecs cs fm).flatten := by
  have hR := flatten_len3 (boardRvecs cs fm) (boardRvecs_row_len cs fm)
  have hT := flatten_len3 (boardTvecs cs fm) (boardTvecs_row_len cs fm)
  have hPP : (boardTvecs cs fm).length = (boardRvecs cs fm).length := by
    simp [boardRvecs, boardTvecs]
  have hhalf : ((boardRvecs cs fm).flatten ++ (boardTvecs cs fm).flatten).length / 2
      = ((boardRvecs cs fm).flatten).length := by
    rw [List.length_append, hR, hT, hPP]
    omega
  rw [hhalf, List.take_left]

/-- Halving the board segment drops onto exactly the translation half. -/
theorem bp_drop_tvecs (cs : List Calib) (fm : List (List Bool)) :
    ((boardRvecs cs fm).flatten ++ (boardTvecs cs fm).flatten).drop
        (((boardRvecs cs fm).flatten ++ (boardTvecs cs fm).flatten).length / 2)
      = (boardTvecs cs fm).flatten := by
  have hR := flatten_len3 (boardRvecs cs fm) (boardRvecs_row_len cs fm)
  have hT := flatten_len3 (boardTvecs cs fm) (boardTvecs_row_len cs fm)
  have hPP : (boardTvecs cs fm).length = (boardRvecs cs fm).length := by
    simp [boardRvecs, boardTvecs]
  have hhalf : ((boardRvecs cs fm).flatten ++ (boardTvecs cs fm).flatten).length / 2
      = ((boardRvecs cs fm).flatten).length := by
    rw [List.length_append, hR, hT, hPP]
    omega
  rw [hhalf, List.drop_left]

/-- Reshaping the flatten of length-3 rows recovers the rows. -/
theorem reshape_board_rows (rows : List (List ℚ)) (hlen3 : ∀ r ∈ rows, r.length = 3) :
    reshapeN3 rows.flatten = some rows := by
  unfold reshapeN3
  rw [flatten_len3 rows hlen3, if_pos (Nat.mul_mod_right 3 rows.length),
    Nat.mul_div_cancel_left rows.length (by norm_num : 0 < 3)]
  congr 1
  conv_rhs => rw [← List.map_id rows]
  apply range_map_eq_map
  intro q hq
  rw [show List.range 3 = [0, 1, 2] from rfl]
  simp only [List.map_cons, List.map_nil]
  rw [flatten_getD3 rows hlen3 q 0 hq (by norm_num),
    flatten_getD3 rows hlen3 q 1 hq (by norm_num),
    flatten_getD3 rows hlen3 q 2 hq (by norm_num)]
  exact len3_eta _ (hlen3 _ (rows.get_mem _ _))

/-- C1 as amended: unflattening the full flat vector built by
`make_initialization` with the matching camera count reproduces the original
per-camera rotations, translations and intrinsic matrices and the per-pose
board rotations and translations exactly, for every camera and pose count;
the distortion vectors come back as they were written into the vector — the
originals when `k_to_zero` is off, otherwise with the non-free coefficients
zeroed (`maskedKEntry`). -/
theorem make_initialization_unravel_roundtrip (cs : List Calib) (fm : List (List Bool))
    (fK : ℕ → Bool) (kZ : Bool) :
    unravel_vars_full (make_initialization_vars_full cs fm fK kZ) cs.length
      = some
          { rvecs_cams := cs.map (fun cal => [cal.rvec_cam 0, cal.rvec_cam 1, cal.rvec_cam 2])
            tvecs_cams := cs.map (fun cal => [cal.tvec_cam 0, cal.tvec_cam 1, cal.tvec_cam 2])
            cam_matrices := cs.map (fun cal =>
              [[cal.A 0 0, cal.A 0 1, cal.A 0 2],
               [cal.A 1 0, cal.A 1 1, cal.A 1 2],
               [cal.A 2 0, cal.A 2 1, cal.A 2 2]])
            ks := cs.map (fun cal =>
              [maskedKEntry fK kZ cal 0, maskedKEntry fK kZ cal 1, maskedKEntry fK kZ cal 2,
               maskedKEntry fK kZ cal 3, maskedKEntry fK kZ cal 4])
            rvecs_boards := boardRvecs cs fm
            tvecs_boards := boardTvecs cs fm } := by
  simp only [unravel_vars_full, unravel_rvecs_cams, unravel_tvecs_cams, unravel_cam_matrices,
    unravel_ks, make_init_drop_cams, bp_take_rvecs, bp_drop_tvecs,
    reshape_board_rows (boardRvecs cs fm) (boardRvecs_row_len cs fm),
    reshape_board_rows (boardTvecs cs fm) (boardTvecs_row_len cs fm)]
  rfl

/-- C1 counterexample: with the default `k_to_zero=True` and a distortion
coefficient that is not free, the round trip does NOT reproduce the original
distortion vector: a camera with `k = (7,7,7,7,7)` and no free distortion
coefficients unravels to the zero distortion vector. -/
theorem roundtrip_zeroes_fixed_distortion :
    (unravel_vars_full (make_initialization_vars_full [calib7] [[true]]
        (fun _ => false) true) 1).map Unraveled.ks = some [[0, 0, 0, 0, 0]] ∧
    calib7.k 0 = 7 := ⟨rfl, rfl⟩

/-! ## Lemmas for the per-frame board-pose refinement stage -/

/-- The nearest-element fold never leaves `i` once reached. -/
theorem nearest_fold_fixed (i : ℕ) :
    ∀ l : List ℕ,
      l.foldl (fun best g => if natDist g i < natDist best i then g else best) i = i := by
  intro l
  induction l with
  | nil => rfl
  | cons g gs ih =>
    have h0 : natDist i i = 0 := by simp [natDist]
    have hstep : (if natDist g i < natDist i i then g else i) = i := by
      rw [h0]; simp
    simp only [List.foldl]
    rw [hstep]
    exact ih

/-- As soon as the element `i` itself is in the list, the nearest-element
fold returns `i` (only `i` has distance 0 to itself). -/
theorem nearest_fold_reaches (i : ℕ) :
    ∀ (l : List ℕ) (b : ℕ), i ∈ l →
      l.foldl (fun best g => if natDist g i < natDist best i then g else best) b = i := by
  intro l
  induction l with
  | nil => intro b h; exact absurd h (List.not_mem_nil i)
  | cons g gs ih =>
    intro b h
    rcases List.mem_cons.mp h with hg | hgs
    · obtain rfl := hg
      have h0 : natDist i i = 0 := by simp [natDist]
      have hbi : (if natDist i i < natDist b i then i else b) = i := by
        rw [h0]
        by_cases hb : b = i
        · simp [hb]
        · have hpos : 0 < natDist b i := by unfold natDist; omega
          rw [if_pos hpos]
      simp only [List.foldl]
      rw [hbi]
      exact nearest_fold_fixed i gs
    · exact ih (if natDist g i < natDist b i then g else b) hgs

/-- A pose index in the good set is its own warm start
(`nearest_i_pose = i_pose if i_pose in good_poses`). -/
theorem nearest_element_self (i : ℕ) (good : List ℕ) (h : i ∈ good) :
    nearest_element i good = i :=
  nearest_fold_reaches i good (good.headD i) h

/-- Peeling the last iteration off the pose loop. -/
theorem obp_run_succ (solve : ℕ → ℕ → SolveResult) (good : List ℕ) (P : ℕ)
    (rvecs0 tvecs0 : ℕ → List ℚ) (calibs0 : List (List ℚ)) (mr0 : MinResult) :
    optimize_board_poses_model solve good (P + 1) rvecs0 tvecs0 calibs0 mr0
      = obp_step solve good
          (optimize_board_poses_model solve good P rvecs0 tvecs0 calibs0 mr0) P := by
  simp [optimize_board_poses_model, List.range_succ]

/-- Every pose index below `P` ends up holding its own single-frame solve's
refined board pose. -/
theorem obp_run_boards (solve : ℕ → ℕ → SolveResult) (good : List ℕ)
    (rvecs0 tvecs0 : ℕ → List ℚ) (calibs0 : List (List ℚ)) (mr0 : MinResult) :
    ∀ (P i : ℕ), i < P →
      (optimize_board_poses_model solve good P rvecs0 tvecs0 calibs0 mr0).rvecs_boards i
          = (solve i (nearest_element i good)).rvec_board ∧
      (optimize_board_poses_model solve good P rvecs0 tvecs0 calibs0 mr0).tvecs_boards i
          = (solve i (nearest_element i good)).tvec_board := by
  intro P
  induction P with
  | zero => intro i hi; exact absurd hi (Nat.not_lt_zero i)
  | succ P ih =>
    intro i hi
    rw [obp_run_succ]
    by_cases hP : i = P
    · subst hP
      constructor <;> simp [obp_step]
    · have hi2 : i < P := by omega
      constructor
      · show (if i = P then _ else _) = _
        rw [if_neg hP]
        exact (ih i hi2).1
      · show (if i = P then _ else _) = _
        rw [if_neg hP]
        exact (ih i hi2).2

/-- C10: the per-frame refinement stage returns the per-camera calibration
structures and the solver diagnostics of the LAST pose's single-frame solve
only, while the refined board rotations and translations are accumulated per
pose (each pose index holds its own solve's result). -/
theorem optimize_board_poses_returns_last_solve (solve : ℕ → ℕ → SolveResult)
    (good : List ℕ) (P : ℕ) (rvecs0 tvecs0 : ℕ → List ℚ) (calibs0 : List (List ℚ))
    (mr0 : MinResult) (hP : 0 < P) :
    (optimize_board_poses_model solve good P rvecs0 tvecs0 calibs0 mr0).min_result
        = (solve (P - 1) (nearest_element (P - 1) good)).min_result ∧
    (optimize_board_poses_model solve good P rvecs0 tvecs0 calibs0 mr0).calibs_fit
        = (solve (P - 1) (nearest_element (P - 1) good)).calibs_fit ∧
    ∀ i, i < P →
      (optimize_board_poses_model solve good P rvecs0 tvecs0 calibs0 mr0).rvecs_boards i
          = (solve i (nearest_element i good)).rvec_board ∧
      (optimize_board_poses_model solve good P rvecs0 tvecs0 calibs0 mr0).tvecs_boards i
          = (solve i (nearest_element i good)).tvec_board := by
  obtain ⟨m, rfl⟩ : ∃ m, P = m + 1 := ⟨P - 1, by omega⟩
  have hm : m + 1 - 1 = m := by omega
  rw [hm]
  refine ⟨?_, ?_, fun i hi => obp_run_boards solve good rvecs0 tvecs0 calibs0 mr0 (m + 1) i hi⟩
  · rw [obp_run_succ]; rfl
  · rw [obp_run_succ]; rfl

/-- C10 witness: with two poses and a solver whose diagnostics identify the
pose, the stage returns pose 1's diagnostics. -/
theorem optimize_board_poses_returns_last_solve_witness :
    (0 : ℕ) < 2 ∧
    (optimize_board_poses_model
        (fun i _ => SolveResult.mk [] [] [] (MinResult.mk (if i = 1 then 5 else 3) 0 []))
        [] 2 (fun _ => []) (fun _ => []) [] (MinResult.mk 7 7 [])).min_result
      = MinResult.mk 5 0 [] := by
  refine ⟨by decide, ?_⟩
  have h := (optimize_board_poses_returns_last_solve
    (fun i _ => SolveResult.mk [] [] [] (MinResult.mk (if i = 1 then 5 else 3) 0 []))
    [] 2 (fun _ => []) (fun _ => []) [] (MinResult.mk 7 7 []) (by decide)).1
  rw [h]
  rfl

/-- C9 counterexample: in the scenario of the claim — pose 1 is the only
poorly fit pose, poses 0 and 2 are good — the stage nevertheless rewrites the
GOOD pose 0's board pose: with a single-frame solver returning board rotation
`[1]`, pose 0's stored rotation is no longer its stage-2 value `[0, 0, 0]`.
So it is false that only the poorly fit frame's board pose changes. -/
theorem board_pose_stage_rewrites_good_poses :
    good_poses_model (fun _ p _ => if p = 1 then 20 else 0) 1 3 1 10 = [0, 2] ∧
    (optimize_board_poses_model (fun _ _ => SolveResult.mk [] [1] [1] (MinResult.mk 0 0 []))
        (good_poses_model (fun _ p _ => if p = 1 then 20 else 0) 1 3 1 10) 3
        (fun _ => [0, 0, 0]) (fun _ => [0, 0, 0]) [] (MinResult.mk 0 0 [])).rvecs_boards 0
      ≠ [0, 0, 0] := by decide

/-- C9 as amended: the refinement stage re-optimizes EVERY pose's board pose
— the poor-fit threshold only selects warm starts (a good pose warm-starts at
itself) — and, provided the single-frame solver honors the stage's all-fixed
camera mask (`hfix`), the camera parameters it returns are identical to the
stage-2 values; each pose index ends up holding its own single-frame solve's
refined board pose. -/
theorem board_pose_stage_refits_every_pose (solve : ℕ → ℕ → SolveResult)
    (good : List ℕ) (P : ℕ) (rvecs0 tvecs0 : ℕ → List ℚ) (calibs0 : List (List ℚ))
    (mr0 : MinResult) (hfix : ∀ i j, (solve i j).calibs_fit = calibs0) (hP : 0 < P) :
    (optimize_board_poses_model solve good P rvecs0 tvecs0 calibs0 mr0).calibs_fit
        = calibs0 ∧
    (∀ i, i ∈ good → nearest_element i good = i) ∧
    ∀ i, i < P →
      (optimize_board_poses_model solve good P rvecs0 tvecs0 calibs0 mr0).rvecs_boards i
          = (solve i (nearest_element i good)).rvec_board ∧
      (optimize_board_poses_model solve good P rvecs0 tvecs0 calibs0 mr0).tvecs_boards i
          = (solve i (nearest_element i good)).tvec_board := by
  refine ⟨?_, fun i hi => nearest_element_self i good hi,
    fun i hi => obp_run_boards solve good rvecs0 tvecs0 calibs0 mr0 P i hi⟩
  obtain ⟨m, rfl⟩ : ∃ m, P = m + 1 := ⟨P - 1, by omega⟩
  rw [obp_run_succ]
  exact hfix m (nearest_element m good)

/-- C9 witness: the amended statement at a concrete two-pose instance with a
solver that keeps the camera parameters fixed. -/
theorem board_pose_stage_refits_every_pose_witness :
    (0 : ℕ) < 2 ∧
    (optimize_board_poses_model (fun _ _ => SolveResult.mk [[9]] [4] [5] (MinResult.mk 0 0 []))
        [0] 2 (fun _ => []) (fun _ => []) [[9]] (MinResult.mk 0 0 [])).calibs_fit = [[9]] :=
  ⟨by decide,
    (board_pose_stage_refits_every_pose
      (fun _ _ => SolveResult.mk [[9]] [4] [5] (MinResult.mk 0 0 [])) [0] 2
      (fun _ => []) (fun _ => []) [[9]] (MinResult.mk 0 0 [])
      (fun _ _ => rfl) (by decide)).1⟩

end Calibcam
